import Mathlib

/-!
Verification development for the `sudoku-py` solving engine
(`src/sudoku/board.py`, `src/sudoku/solver.py`).

The grid is modelled as a flat row-major list of 81 natural numbers
(0 = empty cell).  The per-cell candidate sets (`possible_values`) are a
list of 81 finite sets of naturals.  Machine time is modelled by an
abstract clock `Nat -> Bool`: the k-th cooperative deadline check of a run
reads `clock k` (`true` = the deadline has elapsed at that check); a
counter `t` in the solver state records how many checks have been
performed.  Python exceptions are modelled by an error component carried
next to the (mutated-in-place) solver state, since a raised exception in
the original code leaves the mutated object state behind.
-/

namespace SudokuPy

/-- A grid is a row-major list of the 81 cell values, 0 meaning empty. -/
abbrev Grid := List Nat

/-- The `possible_values` attribute: one candidate set per cell. -/
abbrev PV := List (Finset Nat)

/-- Errors raised by the original code, plus a fuel marker for the
modelled recursion of `propagate_constraints`.  `noPossibleValues i` is
the ValueError citing cell `i` with an empty candidate set;
`contradiction i` is the ValueError citing cell `i` as a contradiction;
`typeError` is the TypeError raised by calling `related_cells` with a
missing argument; `noSolutions` is the ValueError raised by `solve`. -/
inductive Err where
  | noPossibleValues (i : Nat)
  | contradiction (i : Nat)
  | typeError
  | noSolutions
  | fuelOut
deriving DecidableEq

/-- Outcomes of `solve` that correspond to its printed messages and
return value (the first three return True, the last two False). -/
inductive Outcome where
  | alreadySolved
  | solvedByCP
  | solvedByBT
  | cpIncomplete
  | timeLimit
deriving DecidableEq

/-- The three accepted strategy strings. -/
inductive Strategy where
  | auto
  | constraintPropagation
  | backtracking
deriving DecidableEq

instance exceptDecEq {ε α : Type} [DecidableEq ε] [DecidableEq α] :
    DecidableEq (Except ε α) := fun x y =>
  match x, y with
  | Except.ok a, Except.ok b =>
      if h : a = b then isTrue (by rw [h])
      else isFalse (by intro hh; cases hh; exact h rfl)
  | Except.error a, Except.error b =>
      if h : a = b then isTrue (by rw [h])
      else isFalse (by intro hh; cases hh; exact h rfl)
  | Except.ok _, Except.error _ => isFalse (by intro hh; cases hh)
  | Except.error _, Except.ok _ => isFalse (by intro hh; cases hh)

/-- Two cell indices share a row, a column, or a 3x3 box
(`box_row = row // 3 * 3`, `box_col = col // 3 * 3` in the source). -/
def sameUnit (i j : Nat) : Bool :=
  (i / 9 == j / 9) || (i % 9 == j % 9) ||
    (i / 9 / 3 == j / 9 / 3 && i % 9 / 3 == j % 9 / 3)

/-- All cells of the row, column and box of cell `i`, the cell itself
included (the source slices whole rows/columns/boxes of a masked grid). -/
def peersList (i : Nat) : List Nat :=
  (List.range 81).filter (fun j => sameUnit i j)

/-- `sudokuBoard.related_cells`: the set of values appearing in the row,
column or box of cell `i` of `grid`, after masking cell `i` itself
to 0 in a temporary copy.  Note that the masked cell contributes the
value 0 to the returned set. -/
def related_cells (grid : Grid) (i : Nat) : Finset Nat :=
  ((peersList i).map (fun j => if j = i then 0 else grid.getD j 0)).toFinset

/-- `np.all(self.state)`: every cell is nonzero. -/
def isFull (g : Grid) : Bool := g.all (fun v => v != 0)

/-- The constructor's fresh candidate set `set(range(1, 10))`. -/
def allVals : Finset Nat := Finset.Icc 1 9

/-- The constructor's fresh `possible_values` array: 81 copies of
`{1..9}`. -/
def initPV : PV := List.replicate 81 allVals

/-- The first loop of `update_possible_values` over the given index
list: for every empty cell subtract the related values from its
candidate set (in place), raising the no-possible-values error as soon
as a set becomes empty.  The partially updated sets are kept on error,
as the Python object keeps its in-place mutations when an exception is
raised. -/
def updatePVAux (state : Grid) : List Nat → PV → PV × Except Err Unit
  | [], pv => (pv, Except.ok ())
  | i :: rest, pv =>
    if state.getD i 0 = 0 then
      let d := (pv.getD i ∅) \ related_cells state i
      let pv' := pv.set i d
      if d = ∅ then (pv', Except.error (Err.noPossibleValues i))
      else updatePVAux state rest pv'
    else updatePVAux state rest pv

/-- The second loop of `update_possible_values`: on a complete board,
raise the contradiction error at the first cell whose value occurs among
its related cells. -/
def checkContra (state : Grid) : List Nat → Except Err Unit
  | [] => Except.ok ()
  | i :: rest =>
    if state.getD i 0 ∈ related_cells state i then
      Except.error (Err.contradiction i)
    else checkContra state rest

/-- `sudokuBoard.update_possible_values`: subtract related values from
every empty cell's candidate set (raising if one empties), then, only
when the board is complete, scan for contradictions. -/
def update_possible_values (state : Grid) (pv : PV) : PV × Except Err Unit :=
  match updatePVAux state (List.range 81) pv with
  | (pv', Except.ok ()) =>
      if isFull state then (pv', checkContra state (List.range 81))
      else (pv', Except.ok ())
  | (pv', Except.error e) => (pv', Except.error e)

/-- The mutable solver object state: the board, the candidate sets, and
the number of cooperative deadline checks performed so far. -/
structure SState where
  state : Grid
  pv : PV
  t : Nat
deriving DecidableEq

/-- Scan for the first cell (in row-major order) whose candidate set has
exactly one element. -/
def findSingleton (pv : PV) : List Nat → Option Nat
  | [] => none
  | i :: rest =>
      if (pv.getD i ∅).card = 1 then some i else findSingleton pv rest

/-- `set.pop()` on a candidate set: for a singleton set this is its
unique element. -/
def popVal (s : Finset Nat) : Nat := s.fold max 0 id

/-- `sudokuSolver.propagate_constraints`, with an explicit recursion
fuel (the Python recursion performs at most 81 assignments, so any fuel
above 81 behaves like the original).  Returns the mutated state together
with the boolean result or a raised error.  The deadline check consumes
one clock reading. -/
def propagate_constraints (clock : Nat → Bool) :
    Nat → SState → SState × Except Err Bool
  | 0, st => (st, Except.error Err.fuelOut)
  | fuel + 1, st =>
    if isFull st.state then (st, Except.ok true)
    else if clock st.t then ({ st with t := st.t + 1 }, Except.ok false)
    else
      match update_possible_values st.state st.pv with
      | (pv', Except.ok ()) =>
          match findSingleton pv' (List.range 81) with
          | some i =>
              propagate_constraints clock fuel
                ⟨st.state.set i (popVal (pv'.getD i ∅)), pv'.set i ∅, st.t + 1⟩
          | none => (⟨st.state, pv', st.t + 1⟩, Except.ok false)
      | (pv', Except.error e) => (⟨st.state, pv', st.t + 1⟩, Except.error e)

/-- `sudokuSolver.backtrack`: if the board is full, succeed; otherwise
evaluate the deadline check, returning False when elapsed; otherwise the
MRV scan evaluates `self.related_cells(index)` — a call to a two-argument
method with a single argument — and raises a TypeError. -/
def backtrack (clock : Nat → Bool) (st : SState) : SState × Except Err Bool :=
  if isFull st.state then (st, Except.ok true)
  else if clock st.t then ({ st with t := st.t + 1 }, Except.ok false)
  else ({ st with t := st.t + 1 }, Except.error Err.typeError)

/-- `sudokuSolver.solve`: already-full short circuit, then constraint
propagation (unless strategy is backtracking), then backtracking (unless
strategy is constraint propagation), then outcome classification with a
final deadline check. -/
def solve (clock : Nat → Bool) (strategy : Strategy) (fuel : Nat)
    (st : SState) : SState × Except Err Outcome :=
  if isFull st.state then (st, Except.ok Outcome.alreadySolved)
  else
    match (if strategy ≠ Strategy.backtracking then
            propagate_constraints clock fuel st
           else (st, Except.ok false)) with
    | (st1, Except.error e) => (st1, Except.error e)
    | (st1, Except.ok true) => (st1, Except.ok Outcome.solvedByCP)
    | (st1, Except.ok false) =>
      match (if strategy ≠ Strategy.constraintPropagation then
              backtrack clock st1
             else (st1, Except.ok false)) with
      | (st2, Except.error e) => (st2, Except.error e)
      | (st2, Except.ok true) => (st2, Except.ok Outcome.solvedByBT)
      | (st2, Except.ok false) =>
        if clock st2.t = false then
          if strategy = Strategy.constraintPropagation then
            ({ st2 with t := st2.t + 1 }, Except.ok Outcome.cpIncomplete)
          else ({ st2 with t := st2.t + 1 }, Except.error Err.noSolutions)
        else ({ st2 with t := st2.t + 1 }, Except.ok Outcome.timeLimit)

/-- Construction of a board from an initial state: fresh candidate sets
followed by `update_possible_values`; the board is accepted when no
error is raised. -/
def boardInit (s : Grid) : PV × Except Err Unit := update_possible_values s initPV

/-- A grid has no contradiction: no filled cell's value occurs among the
values of its related cells. -/
def noContra (s : Grid) : Prop :=
  ∀ i < 81, s.getD i 0 ≠ 0 → s.getD i 0 ∉ related_cells s i

instance (s : Grid) : Decidable (noContra s) := by
  unfold noContra; infer_instance

/-- Structural invariant of the solver state: both arrays have length
81, cell values stay in [0,9], candidate sets stay inside {1..9}, and no
filled cell has a singleton candidate set (an original clue keeps all
nine candidates; a propagation-filled cell has its set emptied by the
pop). -/
def Inv0 (st : SState) : Prop :=
  st.state.length = 81 ∧ st.pv.length = 81 ∧
  (∀ i, st.state.getD i 0 ≤ 9) ∧
  (∀ i, st.pv.getD i ∅ ⊆ allVals) ∧
  (∀ i, st.state.getD i 0 ≠ 0 → (st.pv.getD i ∅).card ≠ 1)

/-- Modelled from the spec: the 20 proper peer cells of a cell (same
row, column or box, the cell itself excluded). -/
def properPeers (i : Nat) : List Nat :=
  (List.range 81).filter (fun j => sameUnit i j && j != i)

/-- Modelled from the spec: the set of nonzero values present among the
20 peer cells of a cell, zero excluded. -/
def nonzeroPeerVals (g : Grid) (i : Nat) : Finset Nat :=
  (((properPeers i).map (fun j => g.getD j 0)).toFinset).erase 0

/-! ### Concrete boards used as counterexamples and witnesses -/

/-- The completed board of the repository's docstrings. -/
def solvedGrid : Grid :=
  [3, 6, 5, 4, 2, 7, 8, 1, 9,
   4, 8, 7, 9, 3, 1, 5, 2, 6,
   1, 2, 9, 8, 5, 6, 3, 7, 4,
   8, 5, 2, 7, 9, 3, 6, 4, 1,
   6, 1, 3, 2, 4, 8, 9, 5, 7,
   9, 7, 4, 1, 6, 5, 2, 8, 3,
   2, 4, 1, 3, 8, 9, 7, 6, 5,
   5, 3, 8, 6, 7, 4, 1, 9, 2,
   7, 9, 6, 5, 1, 2, 4, 3, 8]

/-- The same board with cell (5,5) emptied: one naked single away from
completion, valid and contradiction-free. -/
def oneEmptyGrid : Grid :=
  [3, 6, 5, 4, 2, 7, 8, 1, 9,
   4, 8, 7, 9, 3, 1, 5, 2, 6,
   1, 2, 9, 8, 5, 6, 3, 7, 4,
   8, 5, 2, 7, 9, 3, 6, 4, 1,
   6, 1, 3, 2, 4, 8, 9, 5, 7,
   9, 7, 4, 1, 6, 0, 2, 8, 3,
   2, 4, 1, 3, 8, 9, 7, 6, 5,
   5, 3, 8, 6, 7, 4, 1, 9, 2,
   7, 9, 6, 5, 1, 2, 4, 3, 8]

/-- `oneEmptyGrid` with cell (0,1) additionally changed to 3: row 0 now
holds two 3s (a contradiction among the clues), yet every empty cell
still has candidates, so construction accepts it. -/
def dupOneEmptyGrid : Grid :=
  [3, 3, 5, 4, 2, 7, 8, 1, 9,
   4, 8, 7, 9, 3, 1, 5, 2, 6,
   1, 2, 9, 8, 5, 6, 3, 7, 4,
   8, 5, 2, 7, 9, 3, 6, 4, 1,
   6, 1, 3, 2, 4, 8, 9, 5, 7,
   9, 7, 4, 1, 6, 0, 2, 8, 3,
   2, 4, 1, 3, 8, 9, 7, 6, 5,
   5, 3, 8, 6, 7, 4, 1, 9, 2,
   7, 9, 6, 5, 1, 2, 4, 3, 8]

/-- The complete but contradictory board of the board docstring (column
9 holds two 2s; the first offending cell is row 1, column 9, index 8). -/
def invalidFullGrid : Grid :=
  [5, 9, 4, 1, 6, 7, 8, 3, 2,
   6, 1, 8, 2, 3, 9, 5, 7, 4,
   2, 3, 7, 4, 5, 8, 1, 6, 9,
   9, 8, 1, 7, 2, 6, 3, 4, 5,
   3, 7, 5, 8, 4, 1, 2, 9, 6,
   4, 2, 6, 3, 9, 5, 7, 8, 1,
   7, 6, 2, 5, 8, 4, 9, 1, 3,
   1, 4, 3, 9, 7, 2, 6, 5, 8,
   8, 5, 9, 6, 1, 3, 4, 7, 2]

/-- The `hidden_singles` fixture of the repository's tests: a valid
puzzle that constraint propagation alone cannot solve (it has no naked
single), so the tests require backtracking to solve it. -/
def hiddenSinglesGrid : Grid :=
  [0, 0, 2, 0, 3, 0, 0, 0, 8,
   0, 0, 0, 0, 0, 8, 0, 0, 0,
   0, 3, 1, 0, 2, 0, 0, 0, 0,
   0, 6, 0, 0, 5, 0, 2, 7, 0,
   0, 1, 0, 0, 0, 0, 0, 5, 0,
   2, 0, 4, 0, 6, 0, 0, 3, 1,
   0, 0, 0, 0, 8, 0, 6, 0, 5,
   0, 0, 0, 0, 0, 0, 0, 1, 3,
   0, 0, 5, 3, 1, 0, 4, 0, 0]

/-- A mostly empty grid whose first two cells hold the same value: a
duplicate inside row 0 on a partial grid. -/
def dupPartialGrid : Grid := 1 :: 1 :: List.replicate 79 0

/-- An entirely empty grid. -/
def emptyGrid : Grid := List.replicate 81 0

/-- The solver state reached by running propagation to its stall point
on the `hidden_singles` fixture with a never-elapsing deadline. -/
def hsStall : SState :=
  (propagate_constraints (fun _ => false) 82
    ⟨hiddenSinglesGrid, (boardInit hiddenSinglesGrid).1, 0⟩).1

/-! ### Basic list lemmas -/

theorem getD_set {α : Type} (l : List α) (i j : Nat) (a d : α) :
    (l.set i a).getD j d = if i = j ∧ i < l.length then a else l.getD j d := by
  rw [List.getD_eq_getElem?_getD, List.getD_eq_getElem?_getD, List.getElem?_set]
  by_cases h1 : i = j
  · subst h1
    by_cases h2 : i < l.length
    · simp [h2]
    · simp only [h2, if_neg, and_false, if_false, ite_false]
      rw [List.getElem?_eq_none (Nat.le_of_not_lt h2)]
      simp [h2]
  · simp [h1]

theorem getD_set_self {α : Type} {l : List α} {i : Nat} (a d : α)
    (h : i < l.length) : (l.set i a).getD i d = a := by
  rw [getD_set]; simp [h]

theorem getD_set_ne {α : Type} {l : List α} {i j : Nat} (a d : α)
    (h : i ≠ j) : (l.set i a).getD j d = l.getD j d := by
  rw [getD_set]; simp [h]

theorem set_getD_self {α : Type} {l : List α} {i : Nat} (d : α)
    (h : i < l.length) : l.set i (l.getD i d) = l := by
  apply List.ext_getElem?
  intro j
  rw [List.getElem?_set]
  by_cases h1 : i = j
  · subst h1
    simp only [h, if_pos, if_pos rfl]
    rw [List.getD_eq_getElem?_getD, List.getElem?_eq_getElem h]
    rfl
  · simp [h1]

theorem getD_lt_length {α : Type} {l : List α} {i : Nat} {d : α}
    (h : l.getD i d ≠ d) : i < l.length := by
  by_contra hc
  exact h (List.getD_eq_default l d (Nat.le_of_not_lt hc))

theorem getD_initPV {i : Nat} (h : i < 81) : initPV.getD i ∅ = allVals := by
  rw [List.getD_eq_getElem?_getD, initPV,
    List.getElem?_eq_getElem (by simpa using h), List.getElem_replicate]
  rfl

/-! ### Peer and related-cell lemmas -/

theorem sameUnit_iff {i j : Nat} : sameUnit i j = true ↔
    (i / 9 = j / 9 ∨ i % 9 = j % 9 ∨
      (i / 9 / 3 = j / 9 / 3 ∧ i % 9 / 3 = j % 9 / 3)) := by
  simp [sameUnit, Bool.or_eq_true, Bool.and_eq_true, or_assoc]

theorem sameUnit_refl (i : Nat) : sameUnit i i = true := by
  rw [sameUnit_iff]; left; rfl

theorem mem_peersList {i j : Nat} :
    j ∈ peersList i ↔ j < 81 ∧ sameUnit i j = true := by
  simp [peersList, List.mem_filter, List.mem_range]

theorem self_mem_peersList {i : Nat} (h : i < 81) : i ∈ peersList i :=
  mem_peersList.mpr ⟨h, sameUnit_refl i⟩

theorem peersList_symm {i j : Nat} (hi : i < 81) :
    j ∈ peersList i → i ∈ peersList j := by
  intro h
  rcases mem_peersList.mp h with ⟨_, hs⟩
  refine mem_peersList.mpr ⟨hi, ?_⟩
  rw [sameUnit_iff] at hs ⊢
  rcases hs with h1 | h2 | ⟨h3, h4⟩
  · exact Or.inl h1.symm
  · exact Or.inr (Or.inl h2.symm)
  · exact Or.inr (Or.inr ⟨h3.symm, h4.symm⟩)

theorem mem_related {g : Grid} {i : Nat} {x : Nat} :
    x ∈ related_cells g i ↔
      ∃ j, j ∈ peersList i ∧ (if j = i then 0 else g.getD j 0) = x := by
  simp [related_cells, List.mem_toFinset, List.mem_map]

theorem zero_mem_related {g : Grid} {i : Nat} (h : i < 81) :
    0 ∈ related_cells g i :=
  mem_related.mpr ⟨i, self_mem_peersList h, by simp⟩

theorem peer_val_mem_related {g : Grid} {i j : Nat}
    (hj : j ∈ peersList i) (hne : j ≠ i) : g.getD j 0 ∈ related_cells g i :=
  mem_related.mpr ⟨j, hj, by simp [hne]⟩

theorem related_set_self (g : Grid) (i : Nat) (v : Nat) :
    related_cells (g.set i v) i = related_cells g i := by
  ext x
  rw [mem_related, mem_related]
  apply exists_congr
  intro j
  by_cases h : j = i
  · simp [h]
  · simp only [h, if_neg, ne_eq, not_false_iff]
    rw [getD_set_ne _ _ (fun hh => h hh.symm)]

theorem mem_related_set {g : Grid} {j k v x : Nat} :
    x ∈ related_cells (g.set k v) j → x ∈ related_cells g j ∨ x = v := by
  intro h
  rcases mem_related.mp h with ⟨m, hm, hx⟩
  by_cases hmj : m = j
  · subst hmj
    simp only [if_pos rfl] at hx
    subst hx
    exact Or.inl (zero_mem_related (mem_peersList.mp hm).1)
  · rw [if_neg hmj, getD_set] at hx
    by_cases hk : k = m ∧ k < g.length
    · rw [if_pos hk] at hx; exact Or.inr hx.symm
    · rw [if_neg hk] at hx
      exact Or.inl (mem_related.mpr ⟨m, hm, by rw [if_neg hmj]; exact hx⟩)

theorem related_set_of_not_peer {g : Grid} {j k v : Nat}
    (hk : k ∉ peersList j) :
    related_cells (g.set k v) j = related_cells g j := by
  ext x
  rw [mem_related, mem_related]
  constructor <;> rintro ⟨m, hm, hx⟩ <;> refine ⟨m, hm, ?_⟩
  · by_cases hmj : m = j
    · simpa [hmj] using hx
    · have hkm : k ≠ m := fun h => hk (h ▸ hm)
      rw [if_neg hmj] at hx ⊢
      rw [getD_set_ne _ _ hkm] at hx
      exact hx
  · by_cases hmj : m = j
    · simpa [hmj] using hx
    · have hkm : k ≠ m := fun h => hk (h ▸ hm)
      rw [if_neg hmj] at hx ⊢
      rw [getD_set_ne _ _ hkm]
      exact hx

/-- Assigning a legal value (one not among the related cells) to an empty
cell preserves freedom from contradictions. -/
theorem noContra_set {g : Grid} {i v : Nat} (hlen : g.length = 81)
    (hi : i < 81) (h0 : g.getD i 0 = 0)
    (hvr : v ∉ related_cells g i) (hnc : noContra g) :
    noContra (g.set i v) := by
  intro j hj hne
  by_cases hji : j = i
  · subst hji
    rw [getD_set_self v 0 (by rw [hlen]; exact hi)]
    rw [related_set_self]
    exact hvr
  · rw [getD_set_ne _ _ (fun h => hji h.symm)] at hne ⊢
    intro hmem
    by_cases hpj : i ∈ peersList j
    · rcases mem_related_set hmem with hmem' | heq
      · exact hnc j hj hne hmem'
      · have hjp : j ∈ peersList i := peersList_symm hj hpj
        have hv2 := peer_val_mem_related (g := g) hjp hji
        rw [heq] at hv2
        exact hvr hv2
    · rw [related_set_of_not_peer hpj] at hmem
      exact hnc j hj hne hmem

/-! ### Lemmas about the candidate-update loop -/

theorem UA_length (s : Grid) (l : List Nat) (pv : PV) :
    (updatePVAux s l pv).1.length = pv.length := by
  induction l generalizing pv with
  | nil => rfl
  | cons i rest ih =>
    simp only [updatePVAux]
    by_cases h0 : s.getD i 0 = 0
    · rw [if_pos h0]
      by_cases hd : (pv.getD i ∅) \ related_cells s i = ∅
      · rw [if_pos hd]
        exact List.length_set pv i _
      · rw [if_neg hd, ih]
        exact List.length_set pv i _
    · rw [if_neg h0]; exact ih pv

theorem UA_not_mem {s : Grid} {l : List Nat} {pv : PV} {i : Nat} (d : Finset Nat)
    (h : i ∉ l) : (updatePVAux s l pv).1.getD i d = pv.getD i d := by
  induction l generalizing pv with
  | nil => rfl
  | cons j rest ih =>
    have hij : j ≠ i := fun hh => h (hh ▸ List.mem_cons_self j rest)
    have hrest : i ∉ rest := fun hh => h (List.mem_cons_of_mem j hh)
    simp only [updatePVAux]
    by_cases h0 : s.getD j 0 = 0
    · rw [if_pos h0]
      by_cases hd : (pv.getD j ∅) \ related_cells s j = ∅
      · rw [if_pos hd]
        exact getD_set_ne _ _ hij
      · rw [if_neg hd, ih hrest]
        exact getD_set_ne _ _ hij
    · rw [if_neg h0]; exact ih hrest

theorem UA_filled {s : Grid} {l : List Nat} {pv : PV} {i : Nat} (d : Finset Nat)
    (h : s.getD i 0 ≠ 0) : (updatePVAux s l pv).1.getD i d = pv.getD i d := by
  induction l generalizing pv with
  | nil => rfl
  | cons j rest ih =>
    simp only [updatePVAux]
    by_cases h0 : s.getD j 0 = 0
    · have hij : j ≠ i := fun hh => h (hh ▸ h0)
      rw [if_pos h0]
      by_cases hd : (pv.getD j ∅) \ related_cells s j = ∅
      · rw [if_pos hd]
        exact getD_set_ne _ _ hij
      · rw [if_neg hd, ih]
        exact getD_set_ne _ _ hij
    · rw [if_neg h0]; exact ih

theorem UA_subset (s : Grid) (l : List Nat) (pv : PV) (i : Nat) :
    (updatePVAux s l pv).1.getD i ∅ ⊆ pv.getD i ∅ := by
  induction l generalizing pv with
  | nil => exact Finset.Subset.refl _
  | cons j rest ih =>
    simp only [updatePVAux]
    by_cases h0 : s.getD j 0 = 0
    · rw [if_pos h0]
      by_cases hd : (pv.getD j ∅) \ related_cells s j = ∅
      · rw [if_pos hd, getD_set]
        by_cases hc : j = i ∧ j < pv.length
        · rw [if_pos hc, ← hc.1]
          exact Finset.sdiff_subset
        · rw [if_neg hc]
      · rw [if_neg hd]
        refine (ih _).trans ?_
        rw [getD_set]
        by_cases hc : j = i ∧ j < pv.length
        · rw [if_pos hc, ← hc.1]
          exact Finset.sdiff_subset
        · rw [if_neg hc]
    · rw [if_neg h0]; exact ih pv

theorem UA_post {s : Grid} {l : List Nat} {pv pv' : PV}
    (h : updatePVAux s l pv = (pv', Except.ok ())) (hnd : l.Nodup) :
    ∀ i ∈ l, s.getD i 0 = 0 →
      pv'.getD i ∅ ≠ ∅ ∧ Disjoint (pv'.getD i ∅) (related_cells s i) := by
  induction l generalizing pv with
  | nil => intro i hi; cases hi
  | cons j rest ih =>
    have hj_rest : j ∉ rest := (List.nodup_cons.mp hnd).1
    have hnd' : rest.Nodup := (List.nodup_cons.mp hnd).2
    intro i hi h0
    simp only [updatePVAux] at h
    by_cases hj0 : s.getD j 0 = 0
    · rw [if_pos hj0] at h
      by_cases hd : (pv.getD j ∅) \ related_cells s j = ∅
      · rw [if_pos hd] at h
        cases h
      · rw [if_neg hd] at h
        rcases List.mem_cons.mp hi with hij | hirest
        · subst hij
          have h1 : pv' = (updatePVAux s rest
              (pv.set i ((pv.getD i ∅) \ related_cells s i))).1 := by
            rw [h]
          have hfin : pv'.getD i ∅ =
              (pv.set i ((pv.getD i ∅) \ related_cells s i)).getD i ∅ := by
            rw [h1, UA_not_mem ∅ hj_rest]
          by_cases hlen : i < pv.length
          · rw [hfin, getD_set_self _ _ hlen]
            exact ⟨hd, Finset.sdiff_disjoint⟩
          · exfalso
            apply hd
            rw [List.getD_eq_default pv ∅ (Nat.le_of_not_lt hlen)]
            exact Finset.empty_sdiff _
        · exact ih h hnd' i hirest h0
    · rw [if_neg hj0] at h
      rcases List.mem_cons.mp hi with hij | hirest
      · subst hij; exact absurd h0 hj0
      · exact ih h hnd' i hirest h0

/-- On candidate sets already disjoint from the related values (and
nonempty at every empty cell), the update loop is the identity. -/
theorem UA_stable {s : Grid} {l : List Nat} {pv : PV}
    (h : ∀ i ∈ l, s.getD i 0 = 0 →
      pv.getD i ∅ ≠ ∅ ∧ Disjoint (pv.getD i ∅) (related_cells s i)) :
    updatePVAux s l pv = (pv, Except.ok ()) := by
  induction l with
  | nil => rfl
  | cons j rest ih =>
    simp only [updatePVAux]
    by_cases hj0 : s.getD j 0 = 0
    · rw [if_pos hj0]
      rcases h j (List.mem_cons_self j rest) hj0 with ⟨hne, hdisj⟩
      have hsd : (pv.getD j ∅) \ related_cells s j = pv.getD j ∅ :=
        Finset.sdiff_eq_self_iff_disjoint.mpr hdisj
      have hlt : j < pv.length := getD_lt_length hne
      rw [hsd, set_getD_self _ hlt, if_neg hne]
      exact ih (fun i hi => h i (List.mem_cons_of_mem j hi))
    · rw [if_neg hj0]
      exact ih (fun i hi => h i (List.mem_cons_of_mem j hi))

/-- When every cell of the list is filled, the update loop does
nothing. -/
theorem UA_filled_all {s : Grid} {l : List Nat} {pv : PV}
    (h : ∀ i ∈ l, s.getD i 0 ≠ 0) :
    updatePVAux s l pv = (pv, Except.ok ()) := by
  induction l with
  | nil => rfl
  | cons j rest ih =>
    simp only [updatePVAux]
    rw [if_neg (h j (List.mem_cons_self j rest))]
    exact ih (fun i hi => h i (List.mem_cons_of_mem j hi))

/-- An error of the update loop is the no-possible-values error at an
empty cell of the list whose candidate set minus its related values is
empty. -/
theorem UA_err {s : Grid} {l : List Nat} {pv pv' : PV} {e : Err}
    (h : updatePVAux s l pv = (pv', Except.error e)) (hnd : l.Nodup) :
    ∃ i ∈ l, e = Err.noPossibleValues i ∧ s.getD i 0 = 0 ∧
      (pv.getD i ∅) \ related_cells s i = ∅ := by
  induction l generalizing pv with
  | nil => cases h
  | cons j rest ih =>
    have hj_rest : j ∉ rest := (List.nodup_cons.mp hnd).1
    have hnd' : rest.Nodup := (List.nodup_cons.mp hnd).2
    simp only [updatePVAux] at h
    by_cases hj0 : s.getD j 0 = 0
    · rw [if_pos hj0] at h
      by_cases hd : (pv.getD j ∅) \ related_cells s j = ∅
      · rw [if_pos hd] at h
        refine ⟨j, List.mem_cons_self j rest, ?_, hj0, hd⟩
        cases h; rfl
      · rw [if_neg hd] at h
        rcases ih h hnd' with ⟨i, hi, he, h0, hsd⟩
        refine ⟨i, List.mem_cons_of_mem j hi, he, h0, ?_⟩
        have hij : j ≠ i := fun hh => hj_rest (hh ▸ hi)
        rw [getD_set_ne _ _ hij] at hsd
        exact hsd
    · rw [if_neg hj0] at h
      rcases ih h hnd' with ⟨i, hi, he, h0, hsd⟩
      exact ⟨i, List.mem_cons_of_mem j hi, he, h0, hsd⟩

/-- If some empty cell of the list has an empty candidate set (after
subtracting its related values), the update loop raises the
no-possible-values error at some cell. -/
theorem UA_exists_err {s : Grid} {l : List Nat} {pv : PV}
    (hnd : l.Nodup)
    (h : ∃ i ∈ l, s.getD i 0 = 0 ∧ (pv.getD i ∅) \ related_cells s i = ∅) :
    ∃ i ∈ l, (updatePVAux s l pv).2 = Except.error (Err.noPossibleValues i) := by
  induction l generalizing pv with
  | nil => rcases h with ⟨i, hi, _⟩; cases hi
  | cons j rest ih =>
    have hj_rest : j ∉ rest := (List.nodup_cons.mp hnd).1
    have hnd' : rest.Nodup := (List.nodup_cons.mp hnd).2
    simp only [updatePVAux]
    by_cases hj0 : s.getD j 0 = 0
    · rw [if_pos hj0]
      by_cases hd : (pv.getD j ∅) \ related_cells s j = ∅
      · rw [if_pos hd]
        exact ⟨j, List.mem_cons_self j rest, rfl⟩
      · rw [if_neg hd]
        rcases h with ⟨i, hi, h0, hsd⟩
        rcases List.mem_cons.mp hi with hij | hirest
        · exact absurd (hij ▸ hsd) hd
        · have hij : j ≠ i := fun hh => hj_rest (hh ▸ hirest)
          have hsd' : (pv.set j ((pv.getD j ∅) \ related_cells s j)).getD i ∅ \
              related_cells s i = ∅ := by
            rw [getD_set_ne _ ∅ hij]; exact hsd
          rcases ih hnd' ⟨i, hirest, h0, hsd'⟩ with ⟨m, hm, hres⟩
          exact ⟨m, List.mem_cons_of_mem j hm, hres⟩
    · rw [if_neg hj0]
      rcases h with ⟨i, hi, h0, hsd⟩
      rcases List.mem_cons.mp hi with hij | hirest
      · exact absurd h0 (hij ▸ hj0)
      · rcases ih hnd' ⟨i, hirest, h0, hsd⟩ with ⟨m, hm, hres⟩
        exact ⟨m, List.mem_cons_of_mem j hm, hres⟩

/-- If no empty cell of the list has an empty candidate set, the update
loop succeeds. -/
theorem UA_ok_of_no_bad {s : Grid} {l : List Nat} {pv : PV}
    (hnd : l.Nodup)
    (h : ∀ i ∈ l, s.getD i 0 = 0 → (pv.getD i ∅) \ related_cells s i ≠ ∅) :
    ∃ pv', updatePVAux s l pv = (pv', Except.ok ()) := by
  induction l generalizing pv with
  | nil => exact ⟨pv, rfl⟩
  | cons j rest ih =>
    have hj_rest : j ∉ rest := (List.nodup_cons.mp hnd).1
    have hnd' : rest.Nodup := (List.nodup_cons.mp hnd).2
    simp only [updatePVAux]
    by_cases hj0 : s.getD j 0 = 0
    · rw [if_pos hj0]
      have hd : (pv.getD j ∅) \ related_cells s j ≠ ∅ :=
        h j (List.mem_cons_self j rest) hj0
      rw [if_neg hd]
      apply ih hnd'
      intro i hi h0
      have hij : j ≠ i := fun hh => hj_rest (hh ▸ hi)
      rw [getD_set_ne _ ∅ hij]
      exact h i (List.mem_cons_of_mem j hi) h0
    · rw [if_neg hj0]
      apply ih hnd'
      intro i hi h0
      exact h i (List.mem_cons_of_mem j hi) h0

/-! ### Lemmas about the contradiction scan -/

theorem CC_ok {s : Grid} {l : List Nat} :
    checkContra s l = Except.ok () ↔
      ∀ i ∈ l, s.getD i 0 ∉ related_cells s i := by
  induction l with
  | nil => simp [checkContra]
  | cons j rest ih =>
    simp only [checkContra]
    by_cases hj : s.getD j 0 ∈ related_cells s j
    · rw [if_pos hj]
      simp only [List.mem_cons]
      constructor
      · intro h; cases h
      · intro h; exact absurd hj (h j (Or.inl rfl))
    · rw [if_neg hj]
      rw [ih]
      constructor
      · intro h i hi
        rcases List.mem_cons.mp hi with hij | hirest
        · exact hij ▸ hj
        · exact h i hirest
      · intro h i hi
        exact h i (List.mem_cons_of_mem j hi)

theorem CC_err {s : Grid} {l : List Nat} {e : Err}
    (h : checkContra s l = Except.error e) :
    ∃ i ∈ l, e = Err.contradiction i ∧ s.getD i 0 ∈ related_cells s i := by
  induction l with
  | nil => cases h
  | cons j rest ih =>
    simp only [checkContra] at h
    by_cases hj : s.getD j 0 ∈ related_cells s j
    · rw [if_pos hj] at h
      refine ⟨j, List.mem_cons_self j rest, ?_, hj⟩
      cases h; rfl
    · rw [if_neg hj] at h
      rcases ih h with ⟨i, hi, he, hmem⟩
      exact ⟨i, List.mem_cons_of_mem j hi, he, hmem⟩

theorem CC_first {s : Grid} {l : List Nat}
    (h : ∃ i ∈ l, s.getD i 0 ∈ related_cells s i) :
    ∃ i ∈ l, s.getD i 0 ∈ related_cells s i ∧
      checkContra s l = Except.error (Err.contradiction i) := by
  induction l with
  | nil => rcases h with ⟨i, hi, _⟩; cases hi
  | cons j rest ih =>
    simp only [checkContra]
    by_cases hj : s.getD j 0 ∈ related_cells s j
    · rw [if_pos hj]
      exact ⟨j, List.mem_cons_self j rest, hj, rfl⟩
    · rw [if_neg hj]
      rcases h with ⟨i, hi, hmem⟩
      rcases List.mem_cons.mp hi with hij | hirest
      · exact absurd (hij ▸ hmem) hj
      · rcases ih ⟨i, hirest, hmem⟩ with ⟨m, hm, hmm, hres⟩
        exact ⟨m, List.mem_cons_of_mem j hm, hmm, hres⟩

/-! ### Lemmas about update_possible_values -/

/-- Computation rule for `update_possible_values` when the first loop
succeeds. -/
theorem UP_eq_aux_ok {s : Grid} {pv pv' : PV}
    (haux : updatePVAux s (List.range 81) pv = (pv', Except.ok ())) :
    update_possible_values s pv =
      if isFull s then (pv', checkContra s (List.range 81))
      else (pv', Except.ok ()) := by
  unfold update_possible_values
  rw [haux]

/-- Computation rule for `update_possible_values` when the first loop
raises. -/
theorem UP_eq_aux_err {s : Grid} {pv pv' : PV} {e : Err}
    (haux : updatePVAux s (List.range 81) pv = (pv', Except.error e)) :
    update_possible_values s pv = (pv', Except.error e) := by
  unfold update_possible_values
  rw [haux]

/-- The candidate sets produced by `update_possible_values` are those of
the first loop, whatever the result. -/
theorem UP_fst (s : Grid) (pv : PV) :
    (update_possible_values s pv).1 = (updatePVAux s (List.range 81) pv).1 := by
  rcases h : updatePVAux s (List.range 81) pv with ⟨pv', r⟩
  rcases r with e | u
  · rw [UP_eq_aux_err h]
  · cases u
    rw [UP_eq_aux_ok h]
    by_cases hf : isFull s
    · rw [if_pos hf]
    · rw [if_neg hf]

theorem UP_ok_of_not_full {s : Grid} {pv pv' : PV}
    (haux : updatePVAux s (List.range 81) pv = (pv', Except.ok ()))
    (hnf : isFull s = false) :
    update_possible_values s pv = (pv', Except.ok ()) := by
  rw [UP_eq_aux_ok haux, hnf]
  rfl

theorem UP_ok_elim {s : Grid} {pv pv' : PV}
    (h : update_possible_values s pv = (pv', Except.ok ())) :
    updatePVAux s (List.range 81) pv = (pv', Except.ok ()) := by
  rcases haux : updatePVAux s (List.range 81) pv with ⟨pv'', r⟩
  rcases r with e | u
  · rw [UP_eq_aux_err haux] at h
    cases h
  · cases u
    rw [UP_eq_aux_ok haux] at h
    by_cases hf : isFull s
    · rw [if_pos hf] at h
      rcases hcc : checkContra s (List.range 81) with e' | u'
      · rw [hcc] at h; cases h
      · rw [hcc] at h
        cases u'
        cases h
        rfl
    · rw [if_neg hf] at h
      cases h
      rfl

/-! ### Lemmas about the naked-single scan and set.pop -/

theorem FS_some {pv : PV} {l : List Nat} {i : Nat}
    (h : findSingleton pv l = some i) :
    i ∈ l ∧ (pv.getD i ∅).card = 1 := by
  induction l with
  | nil => cases h
  | cons j rest ih =>
    simp only [findSingleton] at h
    by_cases hj : (pv.getD j ∅).card = 1
    · rw [if_pos hj] at h
      obtain rfl := Option.some.inj h
      exact ⟨List.mem_cons_self _ _, hj⟩
    · rw [if_neg hj] at h
      rcases ih h with ⟨hmem, hc⟩
      exact ⟨List.mem_cons_of_mem j hmem, hc⟩

theorem FS_none {pv : PV} {l : List Nat}
    (h : findSingleton pv l = none) :
    ∀ i ∈ l, (pv.getD i ∅).card ≠ 1 := by
  induction l with
  | nil => intro i hi; cases hi
  | cons j rest ih =>
    simp only [findSingleton] at h
    by_cases hj : (pv.getD j ∅).card = 1
    · rw [if_pos hj] at h; cases h
    · rw [if_neg hj] at h
      intro i hi
      rcases List.mem_cons.mp hi with hij | hirest
      · exact hij ▸ hj
      · exact ih h i hirest

theorem popVal_singleton (v : Nat) : popVal {v} = v := by
  simp [popVal, Finset.fold_singleton]

/-! ### The invariant preserved by constraint propagation -/

theorem UP_length {s : Grid} {pv pv' : PV} {r : Except Err Unit}
    (hup : update_possible_values s pv = (pv', r)) :
    pv'.length = pv.length := by
  have h1 : pv' = (update_possible_values s pv).1 := by rw [hup]
  rw [h1, UP_fst, UA_length]

theorem UP_filled {s : Grid} {pv pv' : PV} {r : Except Err Unit} {i : Nat}
    (hup : update_possible_values s pv = (pv', r)) (hf : s.getD i 0 ≠ 0) :
    pv'.getD i ∅ = pv.getD i ∅ := by
  have h1 : pv' = (update_possible_values s pv).1 := by rw [hup]
  rw [h1, UP_fst, UA_filled ∅ hf]

theorem UP_subset {s : Grid} {pv pv' : PV} {r : Except Err Unit} (i : Nat)
    (hup : update_possible_values s pv = (pv', r)) :
    pv'.getD i ∅ ⊆ pv.getD i ∅ := by
  have h1 : pv' = (update_possible_values s pv).1 := by rw [hup]
  rw [h1, UP_fst]
  exact UA_subset s (List.range 81) pv i

/-- The central invariant lemma for `propagate_constraints`: the
structural invariant is preserved, contradiction-freedom is preserved,
filled cells are never overwritten; a True result means the board is
complete, a False result means it is not; and the check counter only
grows. -/
theorem propagate_master (clock : Nat → Bool) :
    ∀ (fuel : Nat) (st st' : SState) (r : Except Err Bool),
      propagate_constraints clock fuel st = (st', r) → Inv0 st →
      Inv0 st' ∧
      (noContra st.state → noContra st'.state) ∧
      (∀ i, st.state.getD i 0 ≠ 0 → st'.state.getD i 0 = st.state.getD i 0) ∧
      (r = Except.ok true → isFull st'.state = true) ∧
      (r = Except.ok false → isFull st'.state = false) ∧
      st.t ≤ st'.t := by
  intro fuel
  induction fuel with
  | zero =>
    intro st st' r h hinv
    simp only [propagate_constraints] at h
    injection h with h1 h2
    subst h1
    subst h2
    refine ⟨hinv, id, fun i _ => rfl, ?_, ?_, Nat.le_refl _⟩
    · intro hh
      cases hh
    · intro hh
      cases hh
  | succ fuel ih =>
    intro st st' r h hinv
    by_cases hfull : isFull st.state
    · simp only [propagate_constraints, hfull, if_true, ite_true] at h
      injection h with h1 h2
      subst h1
      subst h2
      refine ⟨hinv, id, fun i _ => rfl, fun _ => hfull, ?_, Nat.le_refl _⟩
      intro hh
      injection hh with hb
      cases hb
    · have hnfull : isFull st.state = false := by simpa using hfull
      by_cases hclk : clock st.t
      · simp only [propagate_constraints, hnfull, hclk, Bool.false_eq_true,
          if_false, if_true, ite_true, ite_false] at h
        injection h with h1 h2
        subst h1
        subst h2
        refine ⟨hinv, id, fun i _ => rfl, ?_, fun _ => hnfull, Nat.le_succ _⟩
        intro hh
        injection hh with hb
        cases hb
      · have hclkf : clock st.t = false := by simpa using hclk
        rcases hup : update_possible_values st.state st.pv with ⟨pv', ru⟩
        have hlenpv' : pv'.length = 81 := by
          rw [UP_length hup]
          exact hinv.2.1
        rcases ru with e | u
        · -- the update raised: the error is propagated unchanged
          simp only [propagate_constraints, hnfull, hclkf, Bool.false_eq_true,
            if_false, ite_false, hup] at h
          injection h with h1 h2
          subst h1
          subst h2
          refine ⟨⟨hinv.1, hlenpv', hinv.2.2.1, ?_, ?_⟩, id, fun i _ => rfl,
            ?_, ?_, Nat.le_succ _⟩
          · intro i
            exact (UP_subset i hup).trans (hinv.2.2.2.1 i)
          · intro i hi
            rw [UP_filled hup hi]
            exact hinv.2.2.2.2 i hi
          · intro hh
            cases hh
          · intro hh
            cases hh
        · cases u
          rcases hfs : findSingleton pv' (List.range 81) with _ | i
          · -- no naked single: propagation stalls
            simp only [propagate_constraints, hnfull, hclkf, Bool.false_eq_true,
              if_false, ite_false, hup, hfs] at h
            injection h with h1 h2
            subst h1
            subst h2
            refine ⟨⟨hinv.1, hlenpv', hinv.2.2.1, ?_, ?_⟩, id, fun i _ => rfl,
              ?_, fun _ => hnfull, Nat.le_succ _⟩
            · intro i
              exact (UP_subset i hup).trans (hinv.2.2.2.1 i)
            · intro i hi
              rw [UP_filled hup hi]
              exact hinv.2.2.2.2 i hi
            · intro hh
              injection hh with hb
              cases hb
          · -- naked single found at cell i: assign and recurse
            rcases FS_some hfs with ⟨hirange, hcard⟩
            have hi81 : i < 81 := List.mem_range.mp hirange
            rcases Finset.card_eq_one.mp hcard with ⟨v, hv⟩
            have hpop : popVal (pv'.getD i ∅) = v := by
              rw [hv]
              exact popVal_singleton v
            have hempty : st.state.getD i 0 = 0 := by
              by_contra hne
              have hpv : pv'.getD i ∅ = st.pv.getD i ∅ := UP_filled hup hne
              exact hinv.2.2.2.2 i hne (hpv ▸ hcard)
            have hvmem : v ∈ pv'.getD i ∅ := by
              rw [hv]
              exact Finset.mem_singleton_self v
            have hvAll : v ∈ allVals :=
              hinv.2.2.2.1 i ((UP_subset i hup) hvmem)
            have hv19 : 1 ≤ v ∧ v ≤ 9 := Finset.mem_Icc.mp hvAll
            have hvrel : v ∉ related_cells st.state i := by
              have hpost := UA_post (UP_ok_elim hup) (List.nodup_range 81)
                i hirange hempty
              exact Finset.disjoint_left.mp hpost.2 hvmem
            simp only [propagate_constraints, hnfull, hclkf, Bool.false_eq_true,
              if_false, ite_false, hup, hfs] at h
            rw [hpop] at h
            have hInvNext : Inv0 ⟨st.state.set i v, pv'.set i ∅, st.t + 1⟩ := by
              refine ⟨?_, ?_, ?_, ?_, ?_⟩
              · rw [List.length_set]
                exact hinv.1
              · rw [List.length_set]
                exact hlenpv'
              · intro j
                rw [getD_set]
                by_cases hc : i = j ∧ i < st.state.length
                · rw [if_pos hc]
                  exact hv19.2
                · rw [if_neg hc]
                  exact hinv.2.2.1 j
              · intro j
                rw [getD_set]
                by_cases hc : i = j ∧ i < pv'.length
                · rw [if_pos hc]
                  exact Finset.empty_subset _
                · rw [if_neg hc]
                  exact (UP_subset j hup).trans (hinv.2.2.2.1 j)
              · intro j hj
                by_cases hij : i = j
                · subst hij
                  rw [getD_set_self ∅ ∅ (by rw [hlenpv']; exact hi81)]
                  simp
                · rw [getD_set_ne _ _ hij]
                  rw [getD_set_ne _ _ hij] at hj
                  rw [UP_filled hup hj]
                  exact hinv.2.2.2.2 j hj
            rcases ih _ st' r h hInvNext with
              ⟨hI, hNC, hPres, hT, hF, hle⟩
            refine ⟨hI, ?_, ?_, hT, hF, ?_⟩
            · intro hnc
              apply hNC
              exact noContra_set hinv.1 hi81 hempty hvrel hnc
            · intro j hj
              have hij : i ≠ j := fun hh => hj (hh ▸ hempty)
              have h1 : (st.state.set i v).getD j 0 = st.state.getD j 0 :=
                getD_set_ne _ _ hij
              rw [hPres j (by rw [h1]; exact hj), h1]
            · exact (Nat.le_succ _).trans hle

/-- When the deadline never elapses, a False result of
`propagate_constraints` is a genuine stall: the final board is
incomplete, its candidate sets are a fixpoint of the update, and no cell
has a singleton candidate set. -/
theorem propagate_stall_char :
    ∀ (fuel : Nat) (st st' : SState),
      propagate_constraints (fun _ => false) fuel st =
        (st', Except.ok false) →
      isFull st'.state = false ∧
      update_possible_values st'.state st'.pv = (st'.pv, Except.ok ()) ∧
      findSingleton st'.pv (List.range 81) = none := by
  intro fuel
  induction fuel with
  | zero =>
    intro st st' h
    simp only [propagate_constraints] at h
    injection h with h1 h2
    cases h2
  | succ fuel ih =>
    intro st st' h
    by_cases hfull : isFull st.state
    · simp only [propagate_constraints, hfull, ite_true] at h
      injection h with h1 h2
      injection h2 with hb
      cases hb
    · have hnfull : isFull st.state = false := by simpa using hfull
      rcases hup : update_possible_values st.state st.pv with ⟨pv', ru⟩
      rcases ru with e | u
      · simp only [propagate_constraints, hnfull, Bool.false_eq_true,
          ite_false, hup] at h
        injection h with h1 h2
        cases h2
      · cases u
        rcases hfs : findSingleton pv' (List.range 81) with _ | i
        · simp only [propagate_constraints, hnfull, Bool.false_eq_true,
            ite_false, hup, hfs] at h
          injection h with h1 h2
          subst h1
          refine ⟨hnfull, ?_, hfs⟩
          have hpost := UA_post (UP_ok_elim hup) (List.nodup_range 81)
          have haux2 : updatePVAux st.state (List.range 81) pv' =
              (pv', Except.ok ()) :=
            UA_stable (fun i hi h0 => hpost i hi h0)
          exact UP_ok_of_not_full haux2 hnfull
        · simp only [propagate_constraints, hnfull, Bool.false_eq_true,
            ite_false, hup, hfs] at h
          exact ih _ st' h

/-- On a complete board, every in-range cell is nonzero. -/
theorem isFull_getD {s : Grid} {i : Nat} (hf : isFull s = true)
    (hi : i < s.length) : s.getD i 0 ≠ 0 := by
  have hmem : s.getD i 0 ∈ s := by
    rw [List.getD_eq_getElem?_getD, List.getElem?_eq_getElem hi]
    exact List.getElem_mem hi
  have := List.all_eq_true.mp hf _ hmem
  simpa using this

/-- A pair is determined by its first projection and a proof about its
second. -/
theorem pair_eq_of_snd {α β : Type} (p : α × β) {b : β} (h : p.2 = b) :
    p = (p.1, b) := by
  rcases p with ⟨x, y⟩
  cases h
  rfl

/-- Every cell of the board has exactly 20 proper peers. -/
theorem properPeers_length : ∀ i < 81, (properPeers i).length = 20 := by
  decide

/-- A False result of propagation always leaves an incomplete board
(the False returns sit under the board-not-full check). -/
theorem propagate_false_not_full (clock : Nat → Bool) :
    ∀ (fuel : Nat) (st st' : SState),
      propagate_constraints clock fuel st = (st', Except.ok false) →
      isFull st'.state = false := by
  intro fuel
  induction fuel with
  | zero =>
    intro st st' h
    simp only [propagate_constraints] at h
    injection h with h1 h2
    cases h2
  | succ fuel ih =>
    intro st st' h
    by_cases hfull : isFull st.state
    · simp only [propagate_constraints, hfull, ite_true] at h
      injection h with h1 h2
      injection h2 with hb
      cases hb
    · have hnfull : isFull st.state = false := by simpa using hfull
      by_cases hclk : clock st.t
      · simp only [propagate_constraints, hnfull, hclk, Bool.false_eq_true,
          ite_false, ite_true] at h
        injection h with h1 h2
        rw [← h1]
        exact hnfull
      · have hclkf : clock st.t = false := by simpa using hclk
        rcases hup : update_possible_values st.state st.pv with ⟨pv', ru⟩
        rcases ru with e | u
        · simp only [propagate_constraints, hnfull, hclkf, Bool.false_eq_true,
            ite_false, hup] at h
          injection h with h1 h2
          cases h2
        · cases u
          rcases hfs : findSingleton pv' (List.range 81) with _ | i
          · simp only [propagate_constraints, hnfull, hclkf,
              Bool.false_eq_true, ite_false, hup, hfs] at h
            injection h with h1 h2
            rw [← h1]
            exact hnfull
          · simp only [propagate_constraints, hnfull, hclkf,
              Bool.false_eq_true, ite_false, hup, hfs] at h
            exact ih _ st' h

/-- Propagation can only raise the fuel marker, a no-possible-values
error or a contradiction error: never the no-solutions error or the
TypeError. -/
theorem propagate_err_ne (clock : Nat → Bool) :
    ∀ (fuel : Nat) (st st' : SState) (e : Err),
      propagate_constraints clock fuel st = (st', Except.error e) →
      e ≠ Err.noSolutions ∧ e ≠ Err.typeError := by
  intro fuel
  induction fuel with
  | zero =>
    intro st st' e h
    simp only [propagate_constraints] at h
    injection h with h1 h2
    injection h2 with hb
    subst hb
    refine ⟨?_, ?_⟩ <;> intro hh <;> cases hh
  | succ fuel ih =>
    intro st st' e h
    by_cases hfull : isFull st.state
    · simp only [propagate_constraints, hfull, ite_true] at h
      injection h with h1 h2
      cases h2
    · have hnfull : isFull st.state = false := by simpa using hfull
      by_cases hclk : clock st.t
      · simp only [propagate_constraints, hnfull, hclk, Bool.false_eq_true,
          ite_false, ite_true] at h
        injection h with h1 h2
        cases h2
      · have hclkf : clock st.t = false := by simpa using hclk
        rcases hup : update_possible_values st.state st.pv with ⟨pv', ru⟩
        rcases ru with e' | u
        · simp only [propagate_constraints, hnfull, hclkf, Bool.false_eq_true,
            ite_false, hup] at h
          injection h with h1 h2
          injection h2 with hb
          subst hb
          -- e comes from update_possible_values
          rcases haux : updatePVAux st.state (List.range 81) st.pv with ⟨pv'', ra⟩
          rcases ra with ea | ua
          · have := UP_eq_aux_err haux
            rw [this] at hup
            injection hup with hp1 hp2
            injection hp2 with hpe
            subst hpe
            rcases UA_err haux (List.nodup_range 81) with ⟨i, _, hei, _, _⟩
            subst hei
            refine ⟨?_, ?_⟩ <;> intro hh <;> cases hh
          · cases ua
            have h2 := UP_eq_aux_ok haux
            rw [h2, if_neg hfull] at hup
            injection hup with hp1 hp2
            cases hp2
        · cases u
          rcases hfs : findSingleton pv' (List.range 81) with _ | i
          · simp only [propagate_constraints, hnfull, hclkf,
              Bool.false_eq_true, ite_false, hup, hfs] at h
            injection h with h1 h2
            cases h2
          · simp only [propagate_constraints, hnfull, hclkf,
              Bool.false_eq_true, ite_false, hup, hfs] at h
            exact ih _ st' e h

/-- Unless a propagation run returned False, its check counter either
did not move (no check performed) or its last performed check (index
one below the final counter) observed a non-elapsed deadline: a check
that observes the elapsed deadline makes propagation return False at
once. -/
theorem propagate_last_check (clock : Nat → Bool) :
    ∀ (fuel : Nat) (st st1 : SState) (r : Except Err Bool),
      propagate_constraints clock fuel st = (st1, r) →
      st.t ≤ st1.t ∧
        (r = Except.ok false ∨ st1.t = st.t ∨ clock (st1.t - 1) = false) := by
  intro fuel
  induction fuel with
  | zero =>
    intro st st1 r h
    simp only [propagate_constraints] at h
    injection h with h1 h2
    subst h1
    exact ⟨Nat.le_refl _, Or.inr (Or.inl rfl)⟩
  | succ fuel ih =>
    intro st st1 r h
    by_cases hfull : isFull st.state
    · simp only [propagate_constraints, hfull, ite_true] at h
      injection h with h1 h2
      subst h1
      exact ⟨Nat.le_refl _, Or.inr (Or.inl rfl)⟩
    · have hnfull : isFull st.state = false := by simpa using hfull
      by_cases hclk : clock st.t
      · simp only [propagate_constraints, hnfull, hclk, Bool.false_eq_true,
          ite_false, ite_true] at h
        injection h with h1 h2
        subst h1
        subst h2
        exact ⟨Nat.le_succ _, Or.inl rfl⟩
      · have hclkf : clock st.t = false := by simpa using hclk
        rcases hup : update_possible_values st.state st.pv with ⟨pv', ru⟩
        rcases ru with e | u
        · simp only [propagate_constraints, hnfull, hclkf, Bool.false_eq_true,
            ite_false, hup] at h
          injection h with h1 h2
          subst h1
          refine ⟨Nat.le_succ _, Or.inr (Or.inr ?_)⟩
          simpa using hclkf
        · cases u
          rcases hfs : findSingleton pv' (List.range 81) with _ | i
          · simp only [propagate_constraints, hnfull, hclkf,
              Bool.false_eq_true, ite_false, hup, hfs] at h
            injection h with h1 h2
            subst h1
            subst h2
            exact ⟨Nat.le_succ _, Or.inl rfl⟩
          · simp only [propagate_constraints, hnfull, hclkf,
              Bool.false_eq_true, ite_false, hup, hfs] at h
            rcases ih _ st1 r h with ⟨hle, hdisj⟩
            refine ⟨(Nat.le_succ _).trans hle, ?_⟩
            rcases hdisj with hok | hteq | hlast
            · exact Or.inl hok
            · refine Or.inr (Or.inr ?_)
              rw [hteq]
              simpa using hclkf
            · exact Or.inr (Or.inr hlast)

/-! ### Unfolding lemmas for backtrack and solve -/

theorem backtrack_full {clock : Nat → Bool} {st : SState}
    (hf : isFull st.state = true) :
    backtrack clock st = (st, Except.ok true) := by
  unfold backtrack
  rw [if_pos hf]

theorem backtrack_timeout {clock : Nat → Bool} {st : SState}
    (hnf : isFull st.state = false) (hc : clock st.t = true) :
    backtrack clock st = ({ st with t := st.t + 1 }, Except.ok false) := by
  unfold backtrack
  rw [if_neg (by simp [hnf]), if_pos hc]

theorem backtrack_typeError {clock : Nat → Bool} {st : SState}
    (hnf : isFull st.state = false) (hc : clock st.t = false) :
    backtrack clock st =
      ({ st with t := st.t + 1 }, Except.error Err.typeError) := by
  unfold backtrack
  rw [if_neg (by simp [hnf]), if_neg (by simp [hc])]

theorem solve_full {clock : Nat → Bool} {strategy : Strategy} {fuel : Nat}
    {st : SState} (hf : isFull st.state = true) :
    solve clock strategy fuel st = (st, Except.ok Outcome.alreadySolved) := by
  unfold solve
  rw [if_pos hf]

theorem solve_not_full {clock : Nat → Bool} {strategy : Strategy}
    {fuel : Nat} {st : SState} (hnf : isFull st.state = false) :
    solve clock strategy fuel st =
      (match (if strategy ≠ Strategy.backtracking then
              propagate_constraints clock fuel st
             else (st, Except.ok false)) with
      | (st1, Except.error e) => (st1, Except.error e)
      | (st1, Except.ok true) => (st1, Except.ok Outcome.solvedByCP)
      | (st1, Except.ok false) =>
        match (if strategy ≠ Strategy.constraintPropagation then
                backtrack clock st1
               else (st1, Except.ok false)) with
        | (st2, Except.error e) => (st2, Except.error e)
        | (st2, Except.ok true) => (st2, Except.ok Outcome.solvedByBT)
        | (st2, Except.ok false) =>
          if clock st2.t = false then
            if strategy = Strategy.constraintPropagation then
              ({ st2 with t := st2.t + 1 }, Except.ok Outcome.cpIncomplete)
            else ({ st2 with t := st2.t + 1 }, Except.error Err.noSolutions)
          else ({ st2 with t := st2.t + 1 }, Except.ok Outcome.timeLimit)) := by
  unfold solve
  rw [if_neg (by simp [hnf])]

/-- A board accepted at construction satisfies the structural
invariant, whatever the check counter. -/
theorem Inv0_of_boardInit {s : Grid} {pv0 : PV} (t0 : Nat)
    (hlen : s.length = 81) (hvals : ∀ i, i < 81 → s.getD i 0 ≤ 9)
    (hacc : boardInit s = (pv0, Except.ok ())) :
    Inv0 ⟨s, pv0, t0⟩ := by
  have hacc' : update_possible_values s initPV = (pv0, Except.ok ()) := hacc
  have hlenpv : pv0.length = 81 := by
    rw [UP_length hacc']
    simp [initPV]
  refine ⟨hlen, hlenpv, ?_, ?_, ?_⟩
  · intro i
    by_cases hi : i < 81
    · exact hvals i hi
    · rw [List.getD_eq_default _ _ (by rw [hlen]; exact Nat.le_of_not_lt hi)]
      exact Nat.zero_le 9
  · intro i
    have hsub := UP_subset i hacc'
    by_cases hi : i < 81
    · rw [getD_initPV hi] at hsub
      exact hsub
    · have hilen : initPV.length ≤ i := by
        simp only [initPV, List.length_replicate]
        exact Nat.le_of_not_lt hi
      rw [List.getD_eq_default _ _ hilen] at hsub
      exact hsub.trans (Finset.empty_subset _)
  · intro i hi0
    by_cases hi : i < 81
    · rw [UP_filled hacc' hi0, getD_initPV hi]
      decide
    · exfalso
      apply hi0
      exact List.getD_eq_default _ _ (by rw [hlen]; exact Nat.le_of_not_lt hi)

/-! ### The claims -/

/-- Claim C3: for every solver state whose board is not completely
filled and whose deadline has not elapsed at the entry check, a call to
backtrack raises a TypeError (it invokes the two-argument method
`related_cells` with a single argument in its MRV scan) instead of
returning a boolean, and performs no trial assignment on the grid: the
returned object state differs from the entry state only by the consumed
deadline check. -/
theorem C3_backtrack_raises_type_error (clock : Nat → Bool) (st : SState)
    (hnf : isFull st.state = false) (hc : clock st.t = false) :
    backtrack clock st =
      ({ st with t := st.t + 1 }, Except.error Err.typeError) :=
  backtrack_typeError hnf hc

theorem C3_backtrack_raises_type_error_witness :
    backtrack (fun _ => false) ⟨emptyGrid, initPV, 0⟩ =
      (⟨emptyGrid, initPV, 1⟩, Except.error Err.typeError) :=
  C3_backtrack_raises_type_error (fun _ => false) ⟨emptyGrid, initPV, 0⟩
    (by decide) rfl

/-- Claim C9: whenever a backtrack call fails (returns False), the grid
and candidate state observed by the caller equal the state at entry —
no trial assignment leaks to the caller.  (On this code the only failing
return is the deadline check, which touches nothing but the counter.) -/
theorem C9_backtrack_fail_preserves_grid (clock : Nat → Bool)
    (st st' : SState) (h : backtrack clock st = (st', Except.ok false)) :
    st'.state = st.state ∧ st'.pv = st.pv := by
  unfold backtrack at h
  by_cases hf : isFull st.state
  · rw [if_pos hf] at h
    injection h with h1 h2
    injection h2 with hb
    cases hb
  · rw [if_neg hf] at h
    by_cases hc : clock st.t
    · rw [if_pos hc] at h
      injection h with h1 h2
      rw [← h1]
      exact ⟨rfl, rfl⟩
    · rw [if_neg hc] at h
      injection h with h1 h2
      cases h2

theorem C9_backtrack_fail_preserves_grid_witness :
    (⟨emptyGrid, initPV, 1⟩ : SState).state =
      (⟨emptyGrid, initPV, 0⟩ : SState).state ∧
    (⟨emptyGrid, initPV, 1⟩ : SState).pv =
      (⟨emptyGrid, initPV, 0⟩ : SState).pv :=
  C9_backtrack_fail_preserves_grid (fun _ => true) ⟨emptyGrid, initPV, 0⟩
    ⟨emptyGrid, initPV, 1⟩ (by decide)

/-- Claim C6, counterexample: on the empty grid, the peer query at cell
0 returns {0} (the masked cell and the empty peers contribute the value
0), not the empty set of nonzero peer values the claim describes — zero
is not excluded from the returned set. -/
theorem C6_related_cells_cex :
    related_cells emptyGrid 0 ≠ nonzeroPeerVals emptyGrid 0 := by
  decide

/-- Claim C6, amended: for every grid and cell index below 81, the peer
query returns exactly the set of nonzero values present among the 20
proper peer cells of the index together with the value 0 (contributed
by the masked cell and any empty peer); the proper peer list has
exactly 20 cells. -/
theorem C6_related_cells_amended (g : Grid) (i : Nat) (hi : i < 81) :
    related_cells g i = insert 0 (nonzeroPeerVals g i) ∧
    (properPeers i).length = 20 := by
  refine ⟨?_, properPeers_length i hi⟩
  ext x
  constructor
  · intro hx
    rcases mem_related.mp hx with ⟨j, hj, hval⟩
    by_cases hji : j = i
    · subst hji
      rw [if_pos rfl] at hval
      rw [← hval]
      exact Finset.mem_insert_self 0 _
    · rw [if_neg hji] at hval
      by_cases hx0 : x = 0
      · rw [hx0]
        exact Finset.mem_insert_self 0 _
      · apply Finset.mem_insert_of_mem
        apply Finset.mem_erase.mpr
        refine ⟨hx0, ?_⟩
        rw [List.mem_toFinset, List.mem_map]
        refine ⟨j, ?_, hval⟩
        rw [properPeers, List.mem_filter]
        rcases mem_peersList.mp hj with ⟨hj81, hsu⟩
        refine ⟨List.mem_range.mpr hj81, ?_⟩
        rw [Bool.and_eq_true, hsu]
        exact ⟨rfl, by simpa [bne_iff_ne] using hji⟩
  · intro hx
    rcases Finset.mem_insert.mp hx with hx0 | hxm
    · rw [hx0]
      exact zero_mem_related hi
    · rcases Finset.mem_erase.mp hxm with ⟨hx0, hxm2⟩
      rw [List.mem_toFinset, List.mem_map] at hxm2
      rcases hxm2 with ⟨j, hj, hval⟩
      rw [properPeers, List.mem_filter] at hj
      rcases hj with ⟨hjr, hcond⟩
      rw [Bool.and_eq_true] at hcond
      have hji : j ≠ i := by simpa [bne_iff_ne] using hcond.2
      exact mem_related.mpr
        ⟨j, mem_peersList.mpr ⟨List.mem_range.mp hjr, hcond.1⟩,
          by rw [if_neg hji]; exact hval⟩

theorem C6_related_cells_amended_witness :
    related_cells solvedGrid 40 = insert 0 (nonzeroPeerVals solvedGrid 40) ∧
    (properPeers 40).length = 20 :=
  C6_related_cells_amended solvedGrid 40 (by decide)

/-- Claim C4, counterexample: a partial grid whose first two cells both
hold 1 (a duplicate nonzero value inside row 0) is accepted by
construction-time validation with no error at all — the contradiction
scan only runs on complete boards, so "for every grid, complete or
partial" fails. -/
theorem C4_validate_cex :
    dupPartialGrid.getD 0 0 ≠ 0 ∧
    dupPartialGrid.getD 0 0 ∈ related_cells dupPartialGrid 0 ∧
    (update_possible_values dupPartialGrid initPV).2 = Except.ok () := by
  refine ⟨by decide, by decide, by decide⟩

/-- Claim C4, amended: for every COMPLETE grid that contains a
duplicate nonzero value within one row, column or box (equivalently,
some cell whose value occurs among its related cells), validation at
board construction fails with the contradiction error citing a cell in
such a conflict. -/
theorem C4_validate_full_amended (s : Grid) (hlen : s.length = 81)
    (hfull : isFull s = true)
    (hdup : ∃ i, i < 81 ∧ s.getD i 0 ∈ related_cells s i) :
    ∃ i, i < 81 ∧ s.getD i 0 ≠ 0 ∧ s.getD i 0 ∈ related_cells s i ∧
      (update_possible_values s initPV).2 =
        Except.error (Err.contradiction i) := by
  have hfilled : ∀ i ∈ List.range 81, s.getD i 0 ≠ 0 := by
    intro i hi
    exact isFull_getD hfull (by rw [hlen]; exact List.mem_range.mp hi)
  have haux : updatePVAux s (List.range 81) initPV =
      (initPV, Except.ok ()) := UA_filled_all hfilled
  have hup : update_possible_values s initPV =
      (initPV, checkContra s (List.range 81)) := by
    rw [UP_eq_aux_ok haux, if_pos hfull]
  rcases hdup with ⟨i, hi81, hmem⟩
  rcases CC_first ⟨i, List.mem_range.mpr hi81, hmem⟩ with ⟨m, hm, hmm, hcc⟩
  refine ⟨m, List.mem_range.mp hm, hfilled m hm, hmm, ?_⟩
  rw [hup, hcc]

theorem C4_validate_full_amended_witness :
    ∃ i, i < 81 ∧ invalidFullGrid.getD i 0 ≠ 0 ∧
      invalidFullGrid.getD i 0 ∈ related_cells invalidFullGrid i ∧
      (update_possible_values invalidFullGrid initPV).2 =
        Except.error (Err.contradiction i) :=
  C4_validate_full_amended invalidFullGrid (by decide) (by decide)
    ⟨8, by decide, by decide⟩

/-- Claim C7: the candidate update on a freshly constructed board
raises the no-possible-values error exactly when some empty cell's
candidate set {1..9} minus the values of its related cells is empty:
(a) any such error cites an empty cell below 81 whose candidate set is
empty; (b) if some empty cell has an empty candidate set, the error is
raised at such a cell; (c) on a partial grid with no such cell the
update completes without error. -/
theorem C7_update_empty_candidates (s : Grid) :
    (∀ i, (update_possible_values s initPV).2 =
        Except.error (Err.noPossibleValues i) →
      i < 81 ∧ s.getD i 0 = 0 ∧ allVals \ related_cells s i = ∅) ∧
    ((∃ i, i < 81 ∧ s.getD i 0 = 0 ∧ allVals \ related_cells s i = ∅) →
      ∃ i, i < 81 ∧ s.getD i 0 = 0 ∧ allVals \ related_cells s i = ∅ ∧
        (update_possible_values s initPV).2 =
          Except.error (Err.noPossibleValues i)) ∧
    (isFull s = false →
      (∀ i, i < 81 → s.getD i 0 = 0 → allVals \ related_cells s i ≠ ∅) →
      (update_possible_values s initPV).2 = Except.ok ()) := by
  refine ⟨?_, ?_, ?_⟩
  · intro i h
    rcases haux : updatePVAux s (List.range 81) initPV with ⟨pv', ru⟩
    rcases ru with e | u
    · have hup := UP_eq_aux_err haux
      rw [hup] at h
      injection h with he
      subst he
      rcases UA_err haux (List.nodup_range 81) with ⟨m, hm, hem, h0, hsd⟩
      injection hem with hmi
      subst hmi
      have hi81 : i < 81 := List.mem_range.mp hm
      rw [getD_initPV hi81] at hsd
      exact ⟨hi81, h0, hsd⟩
    · cases u
      have hup := UP_eq_aux_ok haux
      rw [hup] at h
      by_cases hf : isFull s
      · rw [if_pos hf] at h
        rcases hcc : checkContra s (List.range 81) with e' | u'
        · rw [hcc] at h
          injection h with he
          rcases CC_err hcc with ⟨m, _, hem, _⟩
          rw [hem] at he
          cases he
        · rw [hcc] at h
          cases u'
          cases h
      · rw [if_neg hf] at h
        cases h
  · rintro ⟨i, hi81, h0, hsd⟩
    have hbad : ∃ m ∈ List.range 81, s.getD m 0 = 0 ∧
        (initPV.getD m ∅) \ related_cells s m = ∅ :=
      ⟨i, List.mem_range.mpr hi81, h0, by rw [getD_initPV hi81]; exact hsd⟩
    rcases UA_exists_err (List.nodup_range 81) hbad with ⟨m, hm, hres⟩
    rcases haux : updatePVAux s (List.range 81) initPV with ⟨pv', ru⟩
    rw [haux] at hres
    rcases ru with e | u
    · injection hres with he
      subst he
      rcases UA_err haux (List.nodup_range 81) with ⟨m', hm', hem', h0', hsd'⟩
      injection hem' with hmm
      subst hmm
      have hm81 : m < 81 := List.mem_range.mp hm'
      rw [getD_initPV hm81] at hsd'
      exact ⟨m, hm81, h0', hsd', by rw [UP_eq_aux_err haux]⟩
    · cases hres
  · intro hnf hno
    have hnobad : ∀ i ∈ List.range 81, s.getD i 0 = 0 →
        (initPV.getD i ∅) \ related_cells s i ≠ ∅ := by
      intro i hi h0
      have hi81 : i < 81 := List.mem_range.mp hi
      rw [getD_initPV hi81]
      exact hno i hi81 h0
    rcases UA_ok_of_no_bad (List.nodup_range 81) hnobad with ⟨pv', haux⟩
    rw [UP_ok_of_not_full haux hnf]

theorem C7_update_empty_candidates_witness :
    (update_possible_values oneEmptyGrid initPV).2 = Except.ok () :=
  (C7_update_empty_candidates oneEmptyGrid).2.2 (by decide) (by decide)

/-- Claim C8: propagation is idempotent at its fixpoint.  If a run of
propagate_constraints with a never-elapsing deadline returns Stalled
(False), an immediate second call also returns False and leaves the
grid and the candidate sets unchanged (only the check counter
advances). -/
theorem C8_propagate_idempotent (fuel fuel' : Nat) (st st' : SState)
    (h : propagate_constraints (fun _ => false) fuel st =
      (st', Except.ok false)) :
    propagate_constraints (fun _ => false) (fuel' + 1) st' =
      ({ st' with t := st'.t + 1 }, Except.ok false) := by
  rcases propagate_stall_char fuel st st' h with ⟨hnf, hup, hfs⟩
  simp only [propagate_constraints, hnf, Bool.false_eq_true, ite_false,
    hup, hfs]

theorem C8_propagate_idempotent_witness :
    propagate_constraints (fun _ => false) 1 hsStall =
      ({ hsStall with t := hsStall.t + 1 }, Except.ok false) :=
  C8_propagate_idempotent 82 0
    ⟨hiddenSinglesGrid, (boardInit hiddenSinglesGrid).1, 0⟩ hsStall
    (pair_eq_of_snd _ (by decide))

/-- Claim C10: propagation never overwrites a filled cell.  Starting
from any board accepted at construction, every cell that is filled at
entry keeps its value throughout propagation, and all cell values stay
in [0,9] (each committed assignment targets an empty cell and writes a
value of that cell's candidate set, a subset of {1..9}). -/
theorem C10_propagation_preserves_clues (clock : Nat → Bool) (fuel : Nat)
    (s : Grid) (pv0 : PV) (st' : SState) (r : Except Err Bool) (t0 : Nat)
    (hlen : s.length = 81) (hvals : ∀ i, i < 81 → s.getD i 0 ≤ 9)
    (hacc : boardInit s = (pv0, Except.ok ()))
    (hrun : propagate_constraints clock fuel ⟨s, pv0, t0⟩ = (st', r)) :
    (∀ i, s.getD i 0 ≠ 0 → st'.state.getD i 0 = s.getD i 0) ∧
    (∀ i, st'.state.getD i 0 ≤ 9) ∧ st'.state.length = 81 := by
  have hinv : Inv0 ⟨s, pv0, t0⟩ := Inv0_of_boardInit t0 hlen hvals hacc
  rcases propagate_master clock fuel _ st' r hrun hinv with
    ⟨hI, _, hPres, _, _, _⟩
  exact ⟨hPres, hI.2.2.1, hI.1⟩

/-- Claim C5: with a monotone clock (once the deadline has elapsed it
stays elapsed), whenever the deadline elapses at any cooperative check
performed during a solve run — the performed checks are exactly the
clock reads at the consecutive indices from the entry counter up to one
below the final counter — solve reports the Timeout outcome (returns
False with the time-limit message).  In particular a timed-out,
unfinished search is never reported as the no-solutions error, nor as
the "not solved by propagation alone" outcome, nor as success. -/
theorem C5_timeout_not_unsolvable (clock : Nat → Bool) (strategy : Strategy)
    (fuel : Nat) (st0 st' : SState) (res : Except Err Outcome)
    (hmono : ∀ i j, i ≤ j → clock i = true → clock j = true)
    (hrun : solve clock strategy fuel st0 = (st', res))
    (helapsed : ∃ i, st0.t ≤ i ∧ i < st'.t ∧ clock i = true) :
    res = Except.ok Outcome.timeLimit := by
  have hmc : ∀ X, clock X = false → ∀ i, i ≤ X → clock i = false := by
    intro X hX i hiX
    cases hc : clock i
    · rfl
    · have := hmono i X hiX hc
      rw [hX] at this
      cases this
  rcases helapsed with ⟨i, hi0, hi1, hitrue⟩
  by_cases hf : isFull st0.state
  · rw [solve_full hf] at hrun
    injection hrun with h1 h2
    rw [← h1] at hi1
    omega
  · have hnf : isFull st0.state = false := by simpa using hf
    cases strategy with
    | auto =>
      rcases hp : propagate_constraints clock fuel st0 with ⟨st1, rp⟩
      rcases propagate_last_check clock fuel st0 st1 rp hp with ⟨hle1, hdisj⟩
      rcases rp with e | b
      · simp only [solve, hnf, Bool.false_eq_true, Bool.true_eq_false,
          ite_false, ite_true, ne_eq, not_true, not_false_eq_true,
          reduceCtorEq, if_false, if_true, Prod.mk.injEq, hp] at hrun
        rw [← hrun.1] at hi1
        rcases hdisj with hok | hteq | hlast
        · cases hok
        · omega
        · have := hmc _ hlast i (by omega)
          rw [this] at hitrue
          cases hitrue
      · cases b
        · have hF1 := propagate_false_not_full clock fuel st0 st1 hp
          by_cases hbc : clock st1.t
          · have hbt := backtrack_timeout hF1 hbc
            have hc2 : clock (st1.t + 1) = true :=
              hmono _ _ (Nat.le_succ _) hbc
            simp only [solve, hnf, Bool.false_eq_true, Bool.true_eq_false,
              ite_false, ite_true, ne_eq, not_true, not_false_eq_true,
              reduceCtorEq, if_false, if_true, Prod.mk.injEq, hp, hbt,
              hc2] at hrun
            exact hrun.2.symm
          · have hbcf : clock st1.t = false := by simpa using hbc
            have hbt := backtrack_typeError hF1 hbcf
            simp only [solve, hnf, Bool.false_eq_true, Bool.true_eq_false,
              ite_false, ite_true, ne_eq, not_true, not_false_eq_true,
              reduceCtorEq, if_false, if_true, Prod.mk.injEq, hp,
              hbt] at hrun
            rw [← hrun.1] at hi1
            have hile : i ≤ st1.t := by
              simpa using Nat.le_of_lt_succ hi1
            have := hmc _ hbcf i hile
            rw [this] at hitrue
            cases hitrue
        · simp only [solve, hnf, Bool.false_eq_true, Bool.true_eq_false,
            ite_false, ite_true, ne_eq, not_true, not_false_eq_true,
            reduceCtorEq, if_false, if_true, Prod.mk.injEq, hp] at hrun
          rw [← hrun.1] at hi1
          rcases hdisj with hok | hteq | hlast
          · cases hok
          · omega
          · have := hmc _ hlast i (by omega)
            rw [this] at hitrue
            cases hitrue
    | constraintPropagation =>
      rcases hp : propagate_constraints clock fuel st0 with ⟨st1, rp⟩
      rcases propagate_last_check clock fuel st0 st1 rp hp with ⟨hle1, hdisj⟩
      rcases rp with e | b
      · simp only [solve, hnf, Bool.false_eq_true, Bool.true_eq_false,
          ite_false, ite_true, ne_eq, not_true, not_false_eq_true,
          reduceCtorEq, if_false, if_true, Prod.mk.injEq, hp] at hrun
        rw [← hrun.1] at hi1
        rcases hdisj with hok | hteq | hlast
        · cases hok
        · omega
        · have := hmc _ hlast i (by omega)
          rw [this] at hitrue
          cases hitrue
      · cases b
        · by_cases hc2 : clock st1.t = false
          · simp only [solve, hnf, Bool.false_eq_true, Bool.true_eq_false,
              ite_false, ite_true, ne_eq, not_true, not_false_eq_true,
              reduceCtorEq, if_false, if_true, Prod.mk.injEq, hp,
              hc2] at hrun
            rw [← hrun.1] at hi1
            have hile : i ≤ st1.t := by
              simpa using Nat.le_of_lt_succ hi1
            have := hmc _ hc2 i hile
            rw [this] at hitrue
            cases hitrue
          · have hc2' : clock st1.t = true := by simpa using hc2
            simp only [solve, hnf, Bool.false_eq_true, Bool.true_eq_false,
              ite_false, ite_true, ne_eq, not_true, not_false_eq_true,
              reduceCtorEq, if_false, if_true, Prod.mk.injEq, hp,
              hc2'] at hrun
            exact hrun.2.symm
        · simp only [solve, hnf, Bool.false_eq_true, Bool.true_eq_false,
            ite_false, ite_true, ne_eq, not_true, not_false_eq_true,
            reduceCtorEq, if_false, if_true, Prod.mk.injEq, hp] at hrun
          rw [← hrun.1] at hi1
          rcases hdisj with hok | hteq | hlast
          · cases hok
          · omega
          · have := hmc _ hlast i (by omega)
            rw [this] at hitrue
            cases hitrue
    | backtracking =>
      by_cases hbc : clock st0.t
      · have hbt := backtrack_timeout hnf hbc
        have hc2 : clock (st0.t + 1) = true := hmono _ _ (Nat.le_succ _) hbc
        simp only [solve, hnf, Bool.false_eq_true, Bool.true_eq_false,
          ite_false, ite_true, ne_eq, not_true, not_false_eq_true,
          reduceCtorEq, if_false, if_true, Prod.mk.injEq, hbt, hc2] at hrun
        exact hrun.2.symm
      · have hbcf : clock st0.t = false := by simpa using hbc
        have hbt := backtrack_typeError hnf hbcf
        simp only [solve, hnf, Bool.false_eq_true, Bool.true_eq_false,
          ite_false, ite_true, ne_eq, not_true, not_false_eq_true,
          reduceCtorEq, if_false, if_true, Prod.mk.injEq, hbt] at hrun
        rw [← hrun.1] at hi1
        have hile : i ≤ st0.t := by
          simpa using Nat.le_of_lt_succ hi1
        have := hmc _ hbcf i hile
        rw [this] at hitrue
        cases hitrue

theorem C5_timeout_not_unsolvable_witness :
    (solve (fun i => decide (1 ≤ i)) Strategy.auto 2
      ⟨emptyGrid, initPV, 0⟩).2 = Except.ok Outcome.timeLimit :=
  C5_timeout_not_unsolvable (fun i => decide (1 ≤ i)) Strategy.auto 2
    ⟨emptyGrid, initPV, 0⟩
    (solve (fun i => decide (1 ≤ i)) Strategy.auto 2
      ⟨emptyGrid, initPV, 0⟩).1
    (solve (fun i => decide (1 ≤ i)) Strategy.auto 2
      ⟨emptyGrid, initPV, 0⟩).2
    (fun i j hij hi => by
      simp only [decide_eq_true_eq] at hi ⊢
      omega)
    (pair_eq_of_snd _ rfl)
    ⟨1, Nat.zero_le 1, by decide, by decide⟩

/-- Claim C2 (the code diverges from it): on the repository's own
`hidden_singles` test fixture — accepted at construction, on which
constraint propagation stalls (returns False) with the deadline never
elapsing — solve under strategy auto does not succeed but raises the
TypeError coming from backtrack's malformed `related_cells` call, while
under strategy constraint_propagation it returns the non-fatal
"not solved by propagation alone" outcome without raising. -/
theorem C2_auto_raises_instead_of_solving :
    (boardInit hiddenSinglesGrid).2 = Except.ok () ∧
    (propagate_constraints (fun _ => false) 82
      ⟨hiddenSinglesGrid, (boardInit hiddenSinglesGrid).1, 0⟩).2 =
      Except.ok false ∧
    (solve (fun _ => false) Strategy.auto 82
      ⟨hiddenSinglesGrid, (boardInit hiddenSinglesGrid).1, 0⟩).2 =
      Except.error Err.typeError ∧
    (solve (fun _ => false) Strategy.constraintPropagation 82
      ⟨hiddenSinglesGrid, (boardInit hiddenSinglesGrid).1, 0⟩).2 =
      Except.ok Outcome.cpIncomplete := by
  refine ⟨by decide, by decide, by decide, by decide⟩

/-- Claim C1, counterexample: a board whose clues already contain a row
duplicate (two 3s in row 0) but whose single empty cell still has a
candidate is accepted at construction; solve (strategy auto) then
reports success by constraint propagation, yet the resulting full grid
still contains the contradiction — so success does not imply a
contradiction-free grid for every accepted board. -/
theorem C1_solve_sound_cex :
    (boardInit dupOneEmptyGrid).2 = Except.ok () ∧
    (solve (fun _ => false) Strategy.auto 82
      ⟨dupOneEmptyGrid, (boardInit dupOneEmptyGrid).1, 0⟩).2 =
      Except.ok Outcome.solvedByCP ∧
    ¬ noContra (solve (fun _ => false) Strategy.auto 82
      ⟨dupOneEmptyGrid, (boardInit dupOneEmptyGrid).1, 0⟩).1.state := by
  refine ⟨by decide, by decide, by decide⟩

/-- Claim C1, amended: for every board accepted at construction WHOSE
INITIAL CLUES ARE ALREADY CONTRADICTION-FREE, and every strategy,
whenever solve reports success the board's final state is completely
filled and contains no contradiction: no filled cell's value occurs
among the values of the cells sharing its row, column or box. -/
theorem C1_solve_sound (clock : Nat → Bool) (strategy : Strategy)
    (fuel : Nat) (s : Grid) (pv0 : PV) (st' : SState) (o : Outcome)
    (hlen : s.length = 81) (hvals : ∀ i, i < 81 → s.getD i 0 ≤ 9)
    (hacc : boardInit s = (pv0, Except.ok ()))
    (hnc : noContra s)
    (hrun : solve clock strategy fuel ⟨s, pv0, 0⟩ = (st', Except.ok o))
    (ho : o = Outcome.alreadySolved ∨ o = Outcome.solvedByCP ∨
      o = Outcome.solvedByBT) :
    isFull st'.state = true ∧ noContra st'.state := by
  have hinv : Inv0 ⟨s, pv0, 0⟩ := Inv0_of_boardInit 0 hlen hvals hacc
  by_cases hf : isFull s
  · have hf' : isFull (⟨s, pv0, 0⟩ : SState).state = true := hf
    rw [solve_full hf'] at hrun
    injection hrun with h1 h2
    rw [← h1]
    exact ⟨hf, hnc⟩
  · have hnf : isFull (⟨s, pv0, 0⟩ : SState).state = false := by simpa using hf
    cases strategy with
    | auto =>
      rcases hp : propagate_constraints clock fuel ⟨s, pv0, 0⟩ with ⟨st1, rp⟩
      rcases propagate_master clock fuel _ st1 rp hp hinv with
        ⟨hI1, hNC1, _, hT1, hF1, _⟩
      rcases rp with e | b
      · simp only [solve, hnf, Bool.false_eq_true, Bool.true_eq_false,
          ite_false, ite_true, ne_eq, not_true, not_false_eq_true,
          reduceCtorEq, if_false, if_true, Prod.mk.injEq, Except.ok.injEq,
          eq_self_iff_true, hp] at hrun
        exact hrun.2.elim
      · cases b
        · have hF1' : isFull st1.state = false := hF1 rfl
          by_cases hbc : clock st1.t
          · have hbt := backtrack_timeout hF1' hbc
            by_cases hc2 : clock (st1.t + 1) = false
            · simp only [solve, hnf, Bool.false_eq_true, Bool.true_eq_false,
                ite_false, ite_true, ne_eq, not_true, not_false_eq_true,
                reduceCtorEq, if_false, if_true, Prod.mk.injEq,
                Except.ok.injEq, eq_self_iff_true, hp, hbt, hc2] at hrun
              exact hrun.2.elim
            · have hc2' : clock (st1.t + 1) = true := by simpa using hc2
              simp only [solve, hnf, Bool.false_eq_true, Bool.true_eq_false,
                ite_false, ite_true, ne_eq, not_true, not_false_eq_true,
                reduceCtorEq, if_false, if_true, Prod.mk.injEq,
                Except.ok.injEq, eq_self_iff_true, hp, hbt, hc2'] at hrun
              have ho' := hrun.2
              rcases ho with h | h | h <;> rw [h] at ho' <;> cases ho'
          · have hbcf : clock st1.t = false := by simpa using hbc
            have hbt := backtrack_typeError hF1' hbcf
            simp only [solve, hnf, Bool.false_eq_true, Bool.true_eq_false,
              ite_false, ite_true, ne_eq, not_true, not_false_eq_true,
              reduceCtorEq, if_false, if_true, Prod.mk.injEq,
              Except.ok.injEq, eq_self_iff_true, hp, hbt] at hrun
            exact hrun.2.elim
        · simp only [solve, hnf, Bool.false_eq_true, Bool.true_eq_false,
            ite_false, ite_true, ne_eq, not_true, not_false_eq_true,
            reduceCtorEq, if_false, if_true, Prod.mk.injEq, Except.ok.injEq,
            eq_self_iff_true, hp] at hrun
          rw [← hrun.1]
          exact ⟨hT1 rfl, hNC1 hnc⟩
    | constraintPropagation =>
      rcases hp : propagate_constraints clock fuel ⟨s, pv0, 0⟩ with ⟨st1, rp⟩
      rcases propagate_master clock fuel _ st1 rp hp hinv with
        ⟨hI1, hNC1, _, hT1, hF1, _⟩
      rcases rp with e | b
      · simp only [solve, hnf, Bool.false_eq_true, Bool.true_eq_false,
          ite_false, ite_true, ne_eq, not_true, not_false_eq_true,
          reduceCtorEq, if_false, if_true, Prod.mk.injEq, Except.ok.injEq,
          eq_self_iff_true, hp] at hrun
        exact hrun.2.elim
      · cases b
        · by_cases hc2 : clock st1.t = false
          · simp only [solve, hnf, Bool.false_eq_true, Bool.true_eq_false,
              ite_false, ite_true, ne_eq, not_true, not_false_eq_true,
              reduceCtorEq, if_false, if_true, Prod.mk.injEq,
              Except.ok.injEq, eq_self_iff_true, hp, hc2] at hrun
            have ho' := hrun.2
            rcases ho with h | h | h <;> rw [h] at ho' <;> cases ho'
          · have hc2' : clock st1.t = true := by simpa using hc2
            simp only [solve, hnf, Bool.false_eq_true, Bool.true_eq_false,
              ite_false, ite_true, ne_eq, not_true, not_false_eq_true,
              reduceCtorEq, if_false, if_true, Prod.mk.injEq,
              Except.ok.injEq, eq_self_iff_true, hp, hc2'] at hrun
            have ho' := hrun.2
            rcases ho with h | h | h <;> rw [h] at ho' <;> cases ho'
        · simp only [solve, hnf, Bool.false_eq_true, Bool.true_eq_false,
            ite_false, ite_true, ne_eq, not_true, not_false_eq_true,
            reduceCtorEq, if_false, if_true, Prod.mk.injEq, Except.ok.injEq,
            eq_self_iff_true, hp] at hrun
          rw [← hrun.1]
          exact ⟨hT1 rfl, hNC1 hnc⟩
    | backtracking =>
      by_cases hbc : clock (⟨s, pv0, 0⟩ : SState).t
      · have hbt := backtrack_timeout hnf hbc
        by_cases hc2 : clock ((⟨s, pv0, 0⟩ : SState).t + 1) = false
        · simp only [solve, hnf, Bool.false_eq_true, Bool.true_eq_false,
            ite_false, ite_true, ne_eq, not_true, not_false_eq_true,
            reduceCtorEq, if_false, if_true, Prod.mk.injEq, Except.ok.injEq,
            eq_self_iff_true, hbt, hc2] at hrun
          exact hrun.2.elim
        · have hc2' : clock ((⟨s, pv0, 0⟩ : SState).t + 1) = true := by
            simpa using hc2
          simp only [solve, hnf, Bool.false_eq_true, Bool.true_eq_false,
            ite_false, ite_true, ne_eq, not_true, not_false_eq_true,
            reduceCtorEq, if_false, if_true, Prod.mk.injEq, Except.ok.injEq,
            eq_self_iff_true, hbt, hc2'] at hrun
          have ho' := hrun.2
          rcases ho with h | h | h <;> rw [h] at ho' <;> cases ho'
      · have hbcf : clock (⟨s, pv0, 0⟩ : SState).t = false := by
          simpa using hbc
        have hbt := backtrack_typeError hnf hbcf
        simp only [solve, hnf, Bool.false_eq_true, Bool.true_eq_false,
          ite_false, ite_true, ne_eq, not_true, not_false_eq_true,
          reduceCtorEq, if_false, if_true, Prod.mk.injEq, Except.ok.injEq,
          eq_self_iff_true, hbt] at hrun
        exact hrun.2.elim

theorem C1_solve_sound_witness :
    isFull (solve (fun _ => false) Strategy.auto 82
      ⟨oneEmptyGrid, (boardInit oneEmptyGrid).1, 0⟩).1.state = true ∧
    noContra (solve (fun _ => false) Strategy.auto 82
      ⟨oneEmptyGrid, (boardInit oneEmptyGrid).1, 0⟩).1.state :=
  C1_solve_sound (fun _ => false) Strategy.auto 82 oneEmptyGrid
    (boardInit oneEmptyGrid).1 _ _ (by decide) (by decide)
    (pair_eq_of_snd _ (by decide)) (by decide)
    (pair_eq_of_snd _ (by decide)) (Or.inr (Or.inl rfl))

theorem C10_propagation_preserves_clues_witness :
    (∀ i, oneEmptyGrid.getD i 0 ≠ 0 →
      (propagate_constraints (fun _ => false) 82
        ⟨oneEmptyGrid, (boardInit oneEmptyGrid).1, 0⟩).1.state.getD i 0 =
        oneEmptyGrid.getD i 0) ∧
    (∀ i, (propagate_constraints (fun _ => false) 82
        ⟨oneEmptyGrid, (boardInit oneEmptyGrid).1, 0⟩).1.state.getD i 0 ≤ 9) ∧
    (propagate_constraints (fun _ => false) 82
      ⟨oneEmptyGrid, (boardInit oneEmptyGrid).1, 0⟩).1.state.length = 81 :=
  C10_propagation_preserves_clues (fun _ => false) 82 oneEmptyGrid
    (boardInit oneEmptyGrid).1 _ _ 0 (by decide) (by decide)
    (pair_eq_of_snd _ (by decide))
    (pair_eq_of_snd _ rfl)

end SudokuPy
